import Mathlib

/-!
Verification of the caching / retry / orchestration core of the
Adobe enterprise-automation repository.

The embedding translates, directly from the Python source:
  * `InMemoryCache` (src/03-advanced/enterprise_automation.py, lines 68-126):
    a dict from key to (value, expiry) plus an access-order list, with TTL
    expiry on `get` and LRU eviction on `set`.
  * `InMemoryCache._make_key`: md5 hexdigest of the f-string
    of the positional-argument tuple followed by the sorted keyword items.
    MD5 itself is implemented bit-faithfully (RFC 1321) over byte lists.
  * `retry_on_error` (src/python-automation/adobe_api_client.py, lines 18-37):
    the retry loop with exponential backoff, instrumented to record the
    number of attempts and every sleep duration.
  * `AdobeAPIClient._handle_response` (same file, lines 372-385): the
    status dispatch, including the 429 rate-limit sleep-then-raise path.
  * `AdobeEnterpriseOrchestrator.api_call_with_retry`
    (src/03-advanced/enterprise_automation.py, lines 208-244): cache check,
    semaphore acquisition, simulated remote call, cache store, metrics.

Python `datetime.now()` is abstracted to a `Nat` clock passed explicitly;
sleep durations are recorded as rationals (Python floats such as
`backoff_factor ** attempt` are modelled exactly in `Rat`).
-/

/-- Python values as they appear in this code base: `None`, booleans,
integers, strings, dicts (association lists in insertion order) and lists.
Only the constructors the sources use are modelled. -/
inductive PyVal where
  | none : PyVal
  | bool : Bool → PyVal
  | int : Int → PyVal
  | str : String → PyVal
  | dict : List (String × PyVal) → PyVal
  | list : List PyVal → PyVal

/-- Python truthiness (`if cached:`, `data or {}`): `None`, `False`, `0`,
empty string, empty dict and empty list are falsy. -/
def truthy : PyVal → Bool
  | .none => false
  | .bool b => b
  | .int n => n != 0
  | .str s => s != ""
  | .dict l => !l.isEmpty
  | .list l => !l.isEmpty

/-- Lookup in a Python dict modelled as an association list
(`self._cache[key]` / `key in self._cache`). -/
def lookupA {α : Type} : List (String × α) → String → Option α
  | [], _ => Option.none
  | (k, v) :: rest, key => if k = key then some v else lookupA rest key

/-- Dict assignment `d[key] = val`: replace in place if present, else append
(Python dicts preserve insertion order). -/
def setA {α : Type} : List (String × α) → String → α → List (String × α)
  | [], key, val => [(key, val)]
  | (k, v) :: rest, key, val =>
      if k = key then (key, val) :: rest else (k, v) :: setA rest key val

/-- Dict deletion `del d[key]` (no-op when absent; the source only deletes
present keys). -/
def eraseA {α : Type} : List (String × α) → String → List (String × α)
  | [], _ => []
  | (k, v) :: rest, key => if k = key then rest else (k, v) :: eraseA rest key

/-- The key set of an association list. -/
def keysA {α : Type} (l : List (String × α)) : List String := l.map Prod.fst

/-- The guarded list removal
`if key in order: order.remove(key)` — drop the first occurrence,
no-op when absent. -/
def removeL : List String → String → List String
  | [], _ => []
  | x :: rest, k => if x = k then rest else x :: removeL rest k

/-- State of `InMemoryCache`: `_cache` maps keys to (value, expiry),
`_access_order` is the LRU list (most recently used at the tail). -/
structure CacheState where
  cache : List (String × (PyVal × Nat))
  accessOrder : List String
  maxSize : Nat
  defaultTtl : Nat
  hits : Nat
  misses : Nat

/-- `InMemoryCache.__init__(max_size, default_ttl)`. -/
def initCache (maxSize defaultTtl : Nat) : CacheState :=
  { cache := [], accessOrder := [], maxSize := maxSize,
    defaultTtl := defaultTtl, hits := 0, misses := 0 }

namespace InMemoryCache

/-- The effective TTL of `set`: the source computes
`ttl = ttl or self.default_ttl`, so both `None` and `0` fall back to the
default TTL (Python `or` treats `0` as falsy). -/
def effTtl (c : CacheState) (ttl : Option Nat) : Nat :=
  match ttl with
  | some t => if t = 0 then c.defaultTtl else t
  | Option.none => c.defaultTtl

/-- `InMemoryCache.get(key)`: on a present, unexpired key record a hit, move
the key to the MRU end and return the value; on an expired key delete it
from both structures and fall through; record a miss and return `None`. -/
def get (c : CacheState) (key : String) (now : Nat) : PyVal × CacheState :=
  match lookupA c.cache key with
  | some (value, expiry) =>
      if now < expiry then
        (value, { c with hits := c.hits + 1,
                         accessOrder := removeL c.accessOrder key ++ [key] })
      else
        (PyVal.none, { c with cache := eraseA c.cache key,
                              accessOrder := removeL c.accessOrder key,
                              misses := c.misses + 1 })
  | Option.none => (PyVal.none, { c with misses := c.misses + 1 })

/-- The eviction guard of `set`:
`if len(self._cache) >= self.max_size and key not in self._cache`, then
`oldest_key = self._access_order.pop(0)` — an `IndexError` when the
access-order list is empty (reachable when `max_size = 0`) — followed by
`del self._cache[oldest_key]`. -/
def evictIfFull (c : CacheState) (key : String) : Except String CacheState :=
  if c.maxSize ≤ c.cache.length ∧ (lookupA c.cache key).isNone = true then
    match c.accessOrder with
    | [] => Except.error "IndexError: pop from empty list"
    | oldest :: rest =>
        Except.ok { c with cache := eraseA c.cache oldest,
                           accessOrder := rest }
  else Except.ok c

/-- The unconditional tail of `set`: `self._cache[key] = (value, expiry)`,
then move `key` to the MRU end of the access order. -/
def insertEntry (c : CacheState) (key : String) (value : PyVal)
    (expiry : Nat) : CacheState :=
  { c with cache := setA c.cache key (value, expiry),
           accessOrder := removeL c.accessOrder key ++ [key] }

/-- `InMemoryCache.set(key, value, ttl)`: compute
`expiry = now + (ttl or default_ttl)`, run the eviction guard, then
insert/overwrite the entry. -/
def set (c : CacheState) (key : String) (value : PyVal) (ttl : Option Nat)
    (now : Nat) : Except String CacheState :=
  match evictIfFull c key with
  | Except.error e => Except.error e
  | Except.ok c1 => Except.ok (insertEntry c1 key value (now + effTtl c ttl))

end InMemoryCache

/-- One recorded `set` call: key, value, ttl argument and the clock reading
at the moment of the call. -/
structure SetOp where
  key : String
  value : PyVal
  ttl : Option Nat
  now : Nat

/-- Run a sequence of `set` operations; a raising `set` leaves the state
unchanged (the `IndexError` fires before any mutation). -/
def runSets (c : CacheState) : List SetOp → CacheState
  | [] => c
  | op :: rest =>
      match InMemoryCache.set c op.key op.value op.ttl op.now with
      | Except.ok c1 => runSets c1 rest
      | Except.error _ => runSets c rest

/-- The C3 operation trace on a capacity-2 cache: `set A`, `set B`,
`get A`, `set C`, at successive clock ticks, all well within the default
TTL. -/
def c3Trace (A B C : String) (vA vB vC : PyVal) : CacheState :=
  let c2 := runSets (initCache 2 3600)
    [⟨A, vA, Option.none, 0⟩, ⟨B, vB, Option.none, 1⟩]
  let c3 := (InMemoryCache.get c2 A 2).2
  runSets c3 [⟨C, vC, Option.none, 3⟩]

/-- The exceptions the retry decorator catches:
`except (aiohttp.ClientError, asyncio.TimeoutError)`. Exceptions outside
these two classes escape the loop and are not modelled. -/
inductive Err where
  | clientError : String → Err
  | timeoutError : Err
deriving DecidableEq

/-- One attempt of the wrapped coroutine: its outcome together with the
sleeps it performed internally (e.g. the 429 handler's rate-limit sleep),
in order. The attempt index is the argument, so deterministic per-attempt
behaviour is a function of it. -/
def Attempt (α : Type) : Type := Nat → Except Err α × List Rat

/-- Trace of one run of the retry wrapper: the final outcome (`Except.error`
is the terminal re-raise of `last_exception`, which is `Option.none` only
when the loop body never ran, i.e. `max_retries = 0`), the number of
attempts performed, and every sleep duration in order. -/
structure RetryTrace (α : Type) where
  result : Except (Option Err) α
  attempts : Nat
  sleeps : List Rat

/-- The loop body of `retry_on_error`'s wrapper, by remaining iterations
(`fuel = max_retries - attempt`): try the action; on success return; on a
caught failure, if this was not the last allowed attempt sleep
`backoff_factor ** attempt` and continue, else fall out and re-raise the
last exception. -/
def retryGo {α : Type} (b : Rat) (act : Attempt α) :
    Nat → Option Err → Nat → RetryTrace α
  | _, last, 0 => ⟨Except.error last, 0, []⟩
  | attempt, _, fuel + 1 =>
      match act attempt with
      | (Except.ok v, s) => ⟨Except.ok v, 1, s⟩
      | (Except.error e, s) =>
          if fuel = 0 then ⟨Except.error (some e), 1, s⟩
          else
            let rest := retryGo b act (attempt + 1) (some e) fuel
            ⟨rest.result, 1 + rest.attempts, s ++ b ^ attempt :: rest.sleeps⟩

/-- `retry_on_error(max_retries, backoff_factor)` applied to an action:
`for attempt in range(max_retries)` starting with `last_exception = None`. -/
def retryOnError {α : Type} (maxRetries : Nat) (b : Rat) (act : Attempt α) :
    RetryTrace α :=
  retryGo b act 0 Option.none maxRetries

/-- An HTTP response as `_handle_response` consumes it: status code, the
optional integer `Retry-After` header, and the parsed JSON body. -/
structure HttpResponse where
  status : Nat
  retryAfter : Option Nat
  body : PyVal

/-- `AdobeAPIClient._handle_response`: 200/201 return the body; 429 sleeps
`int(headers.get('Retry-After', 60))` and then raises
`ClientError("Rate limited")`; anything else raises `ClientError`.
The returned list records the sleeps the handler itself performed. -/
def handleResponse (r : HttpResponse) : Except Err PyVal × List Rat :=
  if r.status = 200 ∨ r.status = 201 then (Except.ok r.body, [])
  else if r.status = 429 then
    (Except.error (Err.clientError "Rate limited"),
     [((r.retryAfter.getD 60 : Nat) : Rat)])
  else (Except.error (Err.clientError "API error"), [])

/-- A work unit that fails with `e` on its first `n` attempts and then
returns `v` (no internal sleeps). -/
def failNTimes {α : Type} (n : Nat) (e : Err) (v : α) : Attempt α :=
  fun i => if i < n then (Except.error e, []) else (Except.ok v, [])

/-- A work unit whose attempt `i` always fails with `e i`. -/
def alwaysFail {α : Type} (e : Nat → Err) : Attempt α :=
  fun i => (Except.error (e i), [])

/-- A work unit whose first attempt is answered with HTTP 429 carrying
`Retry-After: r`, and whose later attempts are answered with HTTP 200 and
body `v`; each response goes through `_handle_response`. -/
def rateLimitedOnce (r : Nat) (v : PyVal) : Attempt PyVal :=
  fun i =>
    if i = 0 then handleResponse ⟨429, some r, v⟩
    else handleResponse ⟨200, Option.none, v⟩

/-! ### MD5 (RFC 1321), as used by `hashlib.md5(...).hexdigest()` -/

/-- The 64 round constants `K[i] = floor(abs(sin(i+1)) * 2^32)`. -/
def md5K : List Nat :=
  [0xd76aa478, 0xe8c7b756, 0x242070db, 0xc1bdceee,
   0xf57c0faf, 0x4787c62a, 0xa8304613, 0xfd469501,
   0x698098d8, 0x8b44f7af, 0xffff5bb1, 0x895cd7be,
   0x6b901122, 0xfd987193, 0xa679438e, 0x49b40821,
   0xf61e2562, 0xc040b340, 0x265e5a51, 0xe9b6c7aa,
   0xd62f105d, 0x02441453, 0xd8a1e681, 0xe7d3fbc8,
   0x21e1cde6, 0xc33707d6, 0xf4d50d87, 0x455a14ed,
   0xa9e3e905, 0xfcefa3f8, 0x676f02d9, 0x8d2a4c8a,
   0xfffa3942, 0x8771f681, 0x6d9d6122, 0xfde5380c,
   0xa4beea44, 0x4bdecfa9, 0xf6bb4b60, 0xbebfbc70,
   0x289b7ec6, 0xeaa127fa, 0xd4ef3085, 0x04881d05,
   0xd9d4d039, 0xe6db99e5, 0x1fa27cf8, 0xc4ac5665,
   0xf4292244, 0x432aff97, 0xab9423a7, 0xfc93a039,
   0x655b59c3, 0x8f0ccc92, 0xffeff47d, 0x85845dd1,
   0x6fa87e4f, 0xfe2ce6e0, 0xa3014314, 0x4e0811a1,
   0xf7537e82, 0xbd3af235, 0x2ad7d2bb, 0xeb86d391]

/-- The 64 per-round left-rotation amounts. -/
def md5S : List Nat :=
  [7, 12, 17, 22, 7, 12, 17, 22, 7, 12, 17, 22, 7, 12, 17, 22,
   5, 9, 14, 20, 5, 9, 14, 20, 5, 9, 14, 20, 5, 9, 14, 20,
   4, 11, 16, 23, 4, 11, 16, 23, 4, 11, 16, 23, 4, 11, 16, 23,
   6, 10, 15, 21, 6, 10, 15, 21, 6, 10, 15, 21, 6, 10, 15, 21]

/-- Addition modulo 2^32. -/
def add32 (a b : Nat) : Nat := (a + b) % 4294967296

/-- Left rotation of a 32-bit word. -/
def rotl32 (x n : Nat) : Nat :=
  ((x <<< n) ||| (x >>> (32 - n))) % 4294967296

/-- Bitwise complement of a 32-bit word. -/
def not32 (x : Nat) : Nat := x ^^^ 0xffffffff

/-- One MD5 round: `m` is the 16-word message block, `i` the round index,
`(a, b, c, d)` the running state. -/
def md5Round (m : Nat → Nat) (st : Nat × Nat × Nat × Nat) (i : Nat) :
    Nat × Nat × Nat × Nat :=
  match st with
  | (a, b, c, d) =>
    let fg : Nat × Nat :=
      if i < 16 then ((b &&& c) ||| (not32 b &&& d), i)
      else if i < 32 then ((d &&& b) ||| (not32 d &&& c), (5 * i + 1) % 16)
      else if i < 48 then (b ^^^ c ^^^ d, (3 * i + 5) % 16)
      else (c ^^^ (b ||| not32 d), (7 * i) % 16)
    let tmp := add32 (add32 a fg.1) (add32 (md5K.getD i 0) (m fg.2))
    (d, add32 b (rotl32 tmp (md5S.getD i 0)), b, c)

/-- Decode a 64-byte block into its 16 little-endian 32-bit words. -/
def md5Words (block : List Nat) (j : Nat) : Nat :=
  block.getD (4 * j) 0 + 256 * block.getD (4 * j + 1) 0 +
    65536 * block.getD (4 * j + 2) 0 + 16777216 * block.getD (4 * j + 3) 0

/-- Process one 64-byte block: run the 64 rounds and add the result into
the chaining state. -/
def md5Block (st : Nat × Nat × Nat × Nat) (block : List Nat) :
    Nat × Nat × Nat × Nat :=
  match st with
  | (a0, b0, c0, d0) =>
    match (List.range 64).foldl (md5Round (md5Words block)) (a0, b0, c0, d0) with
    | (a, b, c, d) => (add32 a0 a, add32 b0 b, add32 c0 c, add32 d0 d)

/-- MD5 padding: append `0x80`, zero-pad to 56 mod 64, append the 64-bit
little-endian bit length of the original message. -/
def md5Pad (msg : List Nat) : List Nat :=
  let len := msg.length
  let k := (len + 1) % 64
  let zeros := if k ≤ 56 then 56 - k else 120 - k
  let bitLen := (8 * len) % 18446744073709551616
  msg ++ 0x80 :: List.replicate zeros 0 ++
    (List.range 8).map (fun j => bitLen >>> (8 * j) % 256)

/-- Fold the compression function over the given number of 64-byte blocks. -/
def md5Blocks (st : Nat × Nat × Nat × Nat) :
    Nat → List Nat → Nat × Nat × Nat × Nat
  | 0, _ => st
  | n + 1, bytes => md5Blocks (md5Block st (bytes.take 64)) n (bytes.drop 64)

/-- A nibble as a lowercase hex character. -/
def hexDigit (n : Nat) : Char :=
  if n < 10 then Char.ofNat (48 + n) else Char.ofNat (87 + n)

/-- A byte as two lowercase hex characters. -/
def byteHex (b : Nat) : String :=
  String.mk [hexDigit (b / 16 % 16), hexDigit (b % 16)]

/-- A 32-bit word as eight hex characters, little-endian byte order as in
an MD5 digest. -/
def wordLEHex (w : Nat) : String :=
  byteHex (w % 256) ++ byteHex (w / 256 % 256) ++ byteHex (w / 65536 % 256) ++
    byteHex (w / 16777216 % 256)

/-- `hashlib.md5(bytes).hexdigest()` over a byte list. -/
def md5hex (msg : List Nat) : String :=
  let padded := md5Pad msg
  match md5Blocks (0x67452301, 0xefcdab89, 0x98badcfe, 0x10325476)
      (padded.length / 64) padded with
  | (a, b, c, d) => wordLEHex a ++ wordLEHex b ++ wordLEHex c ++ wordLEHex d

/-- UTF-8 encoding of one character (`str.encode()`). -/
def charUtf8 (c : Char) : List Nat :=
  let n := c.toNat
  if n < 128 then [n]
  else if n < 2048 then [192 + n / 64, 128 + n % 64]
  else if n < 65536 then [224 + n / 4096, 128 + n / 64 % 64, 128 + n % 64]
  else [240 + n / 262144, 128 + n / 4096 % 64, 128 + n / 64 % 64, 128 + n % 64]

/-- `s.encode()`: UTF-8 bytes of a string. -/
def strBytes (s : String) : List Nat := (s.toList.map charUtf8).flatten

set_option maxRecDepth 100000

/-! ### Python `repr` / f-string serialization feeding `_make_key` -/

mutual

/-- Python `repr` of the values appearing in request bodies. String `repr`
is modelled as plain single-quoting (the bodies in this code base contain
no quotes or control characters, so no escaping arises). A dict renders
its items in insertion order as comma-joined `'key': value` pairs inside
braces, a list as comma-joined items inside brackets — exactly as an
f-string renders them. -/
def pyRepr : PyVal → String
  | PyVal.none => "None"
  | PyVal.bool true => "True"
  | PyVal.bool false => "False"
  | PyVal.int n => toString n
  | PyVal.str s => "'" ++ s ++ "'"
  | PyVal.dict l => "\x7b" ++ pyReprPairs l ++ "\x7d"
  | PyVal.list l => "[" ++ pyReprElems l ++ "]"

/-- Comma-joined dict items, `'key': repr(value)` each. -/
def pyReprPairs : List (String × PyVal) → String
  | [] => ""
  | [(k, v)] => "'" ++ k ++ "': " ++ pyRepr v
  | (k, v) :: rest => "'" ++ k ++ "': " ++ pyRepr v ++ ", " ++ pyReprPairs rest

/-- Comma-joined list items. -/
def pyReprElems : List PyVal → String
  | [] => ""
  | [v] => pyRepr v
  | v :: rest => pyRepr v ++ ", " ++ pyReprElems rest

end

/-- Python `repr` of a tuple: parenthesized, comma-separated, with the
trailing comma of a 1-tuple. -/
def tupleRepr (args : List PyVal) : String :=
  "(" ++ String.intercalate ", " (args.map pyRepr) ++
    (if args.length = 1 then ",)" else ")")

/-- Python `str` of a list of `(name, value)` pairs, as produced by
`sorted(kwargs.items())`. -/
def kwargsRepr (kwargs : List (String × PyVal)) : String :=
  "[" ++ String.intercalate ", "
    (kwargs.map (fun p => "('" ++ p.1 ++ "', " ++ pyRepr p.2 ++ ")")) ++ "]"

/-- `sorted(kwargs.items())`: keyword items sorted by key. Python compares
the pairs lexicographically, but keyword names are unique, so sorting by
key alone is equivalent; insertion sort is stable like Python's sort. -/
def sortKwargs (kwargs : List (String × PyVal)) : List (String × PyVal) :=
  List.insertionSort (fun p q => p.1 ≤ q.1) kwargs

/-- `InMemoryCache._make_key(*args, **kwargs)`:
`hashlib.md5(f"{args}{sorted(kwargs.items())}".encode()).hexdigest()`. -/
def makeKey (args : List PyVal) (kwargs : List (String × PyVal)) : String :=
  md5hex (strBytes (tupleRepr args ++ kwargsRepr (sortKwargs kwargs)))

/-! ### `AdobeEnterpriseOrchestrator.api_call_with_retry` -/

/-- Orchestrator state: the shared cache, the `metrics` defaultdict counters
the method touches, and two instrumentation counters — how many times the
semaphore was entered (`async with self.semaphore`) and how many loop
iterations (simulated remote calls) ran. -/
structure OrchState where
  cache : CacheState
  cacheHits : Nat
  apiCalls : Nat
  apiFailures : Nat
  semAcquires : Nat
  remoteCalls : Nat

/-- Result of one orchestrated call: the returned value or propagated
exception, the final state, and the sleeps performed in order. -/
structure OrchResult where
  result : Except String PyVal
  state : OrchState
  sleeps : List Rat

/-- The mock response the simulated API call builds:
`{'success': True, 'data': data or {}, 'timestamp': now.isoformat()}`
(the timestamp is the abstract clock reading rendered as a string). -/
def mockResponse (data : PyVal) (now : Nat) : PyVal :=
  PyVal.dict [("success", PyVal.bool true),
              ("data", if truthy data then data else PyVal.dict []),
              ("timestamp", PyVal.str (toString now))]

/-- The retry loop inside `api_call_with_retry`, by remaining iterations:
each iteration sleeps 0.1, builds the mock response, stores it in the cache
with `ttl=300` (the only statement in the `try` block that can raise),
bumps `api_calls` and returns; on an exception it backs off `2 ** attempt`
unless this was the last attempt, which bumps `api_failures` and re-raises.
Exhausting the loop without a raise (only possible for `max_retries = 0`)
falls off the function, returning Python `None`. -/
def orchLoop (key : String) (data : PyVal) (now : Nat) :
    OrchState → Nat → Nat → OrchResult
  | o, _, 0 => ⟨Except.ok PyVal.none, o, []⟩
  | o, attempt, fuel + 1 =>
      let response := mockResponse data now
      let o1 := { o with remoteCalls := o.remoteCalls + 1 }
      match InMemoryCache.set o1.cache key response (some 300) now with
      | Except.ok c2 =>
          ⟨Except.ok response,
           { o1 with cache := c2, apiCalls := o1.apiCalls + 1 }, [(1 : Rat) / 10]⟩
      | Except.error e =>
          if fuel = 0 then
            ⟨Except.error e, { o1 with apiFailures := o1.apiFailures + 1 },
             [(1 : Rat) / 10]⟩
          else
            let rest := orchLoop key data now o1 (attempt + 1) fuel
            ⟨rest.result, rest.state,
             (1 : Rat) / 10 :: (2 : Rat) ^ attempt :: rest.sleeps⟩

/-- `api_call_with_retry(endpoint, method, data, max_retries)`: derive the
key, probe the cache, and — because the source guards with `if cached:` —
return the cached value only when it is truthy; otherwise enter the
semaphore and run the retry loop. -/
def apiCallWithRetry (o : OrchState) (endpoint method : String) (data : PyVal)
    (maxRetries : Nat) (now : Nat) : OrchResult :=
  let key := makeKey [PyVal.str endpoint, PyVal.str method, data] []
  let probe := InMemoryCache.get o.cache key now
  let o1 := { o with cache := probe.2 }
  if truthy probe.1 then
    ⟨Except.ok probe.1, { o1 with cacheHits := o1.cacheHits + 1 }, []⟩
  else
    orchLoop key data now { o1 with semAcquires := o1.semAcquires + 1 }
      0 maxRetries

/-- Well-formedness of a cache state, as maintained by the source: the dict
keys are distinct (a dict property), the access-order list is duplicate-free,
and both hold exactly the same keys. -/
def CacheWF (c : CacheState) : Prop :=
  (keysA c.cache).Nodup ∧ c.accessOrder.Nodup ∧
    ∀ k, k ∈ keysA c.cache ↔ k ∈ c.accessOrder

/-! ### Association-list and removal lemmas -/

theorem keysA_nil {α : Type} : keysA ([] : List (String × α)) = [] := rfl

theorem keysA_cons {α : Type} (p : String × α) (l : List (String × α)) :
    keysA (p :: l) = p.1 :: keysA l := rfl

theorem lookupA_isNone_iff {α : Type} (l : List (String × α)) (k : String) :
    (lookupA l k).isNone = true ↔ k ∉ keysA l := by
  induction l with
  | nil => simp [lookupA, keysA_nil]
  | cons p rest ih =>
      obtain ⟨k', v⟩ := p
      by_cases h : k' = k
      · subst h
        simp [lookupA, keysA_cons]
      · simp [lookupA, h, keysA_cons, List.mem_cons, Ne.symm h, ih]

theorem lookupA_setA_self {α : Type} (l : List (String × α)) (k : String)
    (v : α) : lookupA (setA l k v) k = some v := by
  induction l with
  | nil => simp [setA, lookupA]
  | cons p rest ih =>
      obtain ⟨k', w⟩ := p
      by_cases h : k' = k
      · simp [setA, lookupA, h]
      · simp [setA, lookupA, h, ih]

theorem mem_keysA_setA {α : Type} (l : List (String × α)) (k j : String)
    (v : α) : j ∈ keysA (setA l k v) ↔ j ∈ keysA l ∨ j = k := by
  induction l with
  | nil => simp [setA, keysA_cons, keysA_nil]
  | cons p rest ih =>
      obtain ⟨k', w⟩ := p
      by_cases h : k' = k
      · subst h
        have hs : setA ((k', w) :: rest) k' v = (k', v) :: rest := by
          simp [setA]
        rw [hs, keysA_cons, keysA_cons]
        simp only [List.mem_cons]
        tauto
      · simp only [setA, if_neg h, keysA_cons, List.mem_cons, ih]
        tauto

theorem length_setA {α : Type} (l : List (String × α)) (k : String) (v : α) :
    (setA l k v).length =
      if k ∈ keysA l then l.length else l.length + 1 := by
  induction l with
  | nil => simp [setA, keysA_nil]
  | cons p rest ih =>
      obtain ⟨k', w⟩ := p
      by_cases h : k' = k
      · subst h
        simp [setA, keysA_cons]
      · simp only [setA, if_neg h, List.length_cons, keysA_cons,
          List.mem_cons, ih]
        by_cases hj : k ∈ keysA rest
        · simp [hj, Ne.symm h]
        · simp [hj, Ne.symm h]

theorem nodup_keysA_setA {α : Type} (l : List (String × α)) (k : String)
    (v : α) (h : (keysA l).Nodup) : (keysA (setA l k v)).Nodup := by
  induction l with
  | nil => simp [setA, keysA_cons, keysA_nil]
  | cons p rest ih =>
      obtain ⟨k', w⟩ := p
      simp only [keysA_cons, List.nodup_cons] at h
      by_cases hk : k' = k
      · subst hk
        simpa [setA, keysA_cons, List.nodup_cons] using h
      · have h2 := ih h.2
        simp only [setA, if_neg hk, keysA_cons, List.nodup_cons]
        refine ⟨fun hmem => ?_, h2⟩
        rcases (mem_keysA_setA rest k k' v).mp hmem with h3 | h3
        · exact h.1 h3
        · exact hk h3

theorem length_eraseA {α : Type} (l : List (String × α)) (k : String)
    (h : k ∈ keysA l) : (eraseA l k).length + 1 = l.length := by
  induction l with
  | nil => simp [keysA_nil] at h
  | cons p rest ih =>
      obtain ⟨k', w⟩ := p
      by_cases hk : k' = k
      · simp [eraseA, hk]
      · simp only [keysA_cons, List.mem_cons] at h
        rcases h with h | h
        · exact absurd h.symm hk
        · simp [eraseA, hk, ih h]

theorem mem_keysA_eraseA {α : Type} (l : List (String × α)) (k j : String)
    (h : (keysA l).Nodup) : j ∈ keysA (eraseA l k) ↔ j ∈ keysA l ∧ j ≠ k := by
  induction l with
  | nil => simp [eraseA, keysA_nil]
  | cons p rest ih =>
      obtain ⟨k', w⟩ := p
      simp only [keysA_cons, List.nodup_cons] at h
      by_cases hk : k' = k
      · subst hk
        simp only [eraseA, if_pos rfl, keysA_cons, List.mem_cons]
        constructor
        · intro hj
          refine ⟨Or.inr hj, fun hjk => h.1 (hjk ▸ hj)⟩
        · rintro ⟨hj | hj, hne⟩
          · exact absurd hj hne
          · exact hj
      · simp only [eraseA, if_neg hk, keysA_cons, List.mem_cons, ih h.2]
        constructor
        · rintro (hj | hj)
          · refine ⟨Or.inl hj, fun he => hk ?_⟩
            rw [← hj]
            exact he
          · exact ⟨Or.inr hj.1, hj.2⟩
        · rintro ⟨hj | hj, hne⟩
          · exact Or.inl hj
          · exact Or.inr ⟨hj, hne⟩

theorem nodup_keysA_eraseA {α : Type} (l : List (String × α)) (k : String)
    (h : (keysA l).Nodup) : (keysA (eraseA l k)).Nodup := by
  induction l with
  | nil => simp [eraseA, keysA_nil]
  | cons p rest ih =>
      obtain ⟨k', w⟩ := p
      simp only [keysA_cons, List.nodup_cons] at h
      by_cases hk : k' = k
      · subst hk
        simpa [eraseA, keysA_cons] using h.2
      · simp only [eraseA, if_neg hk, keysA_cons, List.nodup_cons]
        refine ⟨fun hmem => ?_, ih h.2⟩
        exact h.1 ((mem_keysA_eraseA rest k k' h.2).mp hmem).1

theorem mem_removeL (l : List String) (k j : String) (h : l.Nodup) :
    j ∈ removeL l k ↔ j ∈ l ∧ j ≠ k := by
  induction l with
  | nil => simp [removeL]
  | cons x rest ih =>
      simp only [List.nodup_cons] at h
      by_cases hx : x = k
      · subst hx
        simp only [removeL, if_pos rfl, List.mem_cons]
        constructor
        · intro hj
          exact ⟨Or.inr hj, fun hjk => h.1 (hjk ▸ hj)⟩
        · rintro ⟨hj | hj, hne⟩
          · exact absurd hj hne
          · exact hj
      · simp only [removeL, if_neg hx, List.mem_cons, ih h.2]
        constructor
        · rintro (hj | hj)
          · refine ⟨Or.inl hj, fun he => hx ?_⟩
            rw [← hj]
            exact he
          · exact ⟨Or.inr hj.1, hj.2⟩
        · rintro ⟨hj | hj, hne⟩
          · exact Or.inl hj
          · exact Or.inr ⟨hj, hne⟩

theorem nodup_removeL (l : List String) (k : String) (h : l.Nodup) :
    (removeL l k).Nodup := by
  induction l with
  | nil => simp [removeL]
  | cons x rest ih =>
      simp only [List.nodup_cons] at h
      by_cases hx : x = k
      · subst hx
        simp [removeL, h.2]
      · simp only [removeL, if_neg hx, List.nodup_cons]
        refine ⟨fun hmem => ?_, ih h.2⟩
        exact h.1 ((mem_removeL rest k x h.2).mp hmem).1

/-! ### Preservation of well-formedness and the capacity bound -/

theorem initCache_wf (m d : Nat) : CacheWF (initCache m d) := by
  refine ⟨List.nodup_nil, List.nodup_nil, fun k => ?_⟩
  simp [initCache, keysA_nil]

theorem insertEntry_wf {c : CacheState} {k : String} {v : PyVal} {e : Nat}
    (h : CacheWF c) : CacheWF (InMemoryCache.insertEntry c k v e) := by
  obtain ⟨hnc, hno, hmem⟩ := h
  refine ⟨nodup_keysA_setA _ _ _ hnc, ?_, fun j => ?_⟩
  · show (removeL c.accessOrder k ++ [k]).Nodup
    rw [List.nodup_append]
    refine ⟨nodup_removeL _ _ hno, List.nodup_singleton k, fun a ha hb => ?_⟩
    rw [List.mem_singleton] at hb
    exact ((mem_removeL _ _ _ hno).mp ha).2 hb
  · show j ∈ keysA (setA c.cache k (v, e)) ↔
      j ∈ removeL c.accessOrder k ++ [k]
    rw [mem_keysA_setA, List.mem_append, List.mem_singleton,
      mem_removeL _ _ _ hno]
    by_cases hj : j = k
    · simp [hj]
    · simp [hj, hmem j]

theorem length_insertEntry (c : CacheState) (k : String) (v : PyVal)
    (e : Nat) : (InMemoryCache.insertEntry c k v e).cache.length =
      if k ∈ keysA c.cache then c.cache.length else c.cache.length + 1 :=
  length_setA c.cache k (v, e)

theorem evictIfFull_ok {c c1 : CacheState} {k : String} (h : CacheWF c)
    (hev : InMemoryCache.evictIfFull c k = Except.ok c1) :
    CacheWF c1 ∧ c1.maxSize = c.maxSize ∧ c1.defaultTtl = c.defaultTtl ∧
      ((c1 = c ∧ ¬(c.maxSize ≤ c.cache.length ∧ k ∉ keysA c.cache)) ∨
        (c1.cache.length + 1 = c.cache.length ∧ k ∉ keysA c.cache ∧
          keysA c1.cache ⊆ keysA c.cache)) := by
  obtain ⟨hnc, hno, hmem⟩ := h
  unfold InMemoryCache.evictIfFull at hev
  by_cases hcond : c.maxSize ≤ c.cache.length ∧
      (lookupA c.cache k).isNone = true
  · rw [if_pos hcond] at hev
    match horder : c.accessOrder with
    | [] =>
        rw [horder] at hev
        cases hev
    | oldest :: rest =>
        rw [horder] at hev
        have hc1 : c1 = { c with
            cache := eraseA c.cache oldest,
            accessOrder := rest } := by
          cases hev
          rfl
        have holdmem : oldest ∈ keysA c.cache := by
          rw [hmem, horder]
          exact List.mem_cons_self oldest rest
        have hrest : rest.Nodup ∧ oldest ∉ rest := by
          have := hno
          rw [horder, List.nodup_cons] at this
          exact ⟨this.2, this.1⟩
        refine ⟨⟨?_, ?_, fun j => ?_⟩, ?_, ?_, ?_⟩
        · rw [hc1]
          exact nodup_keysA_eraseA _ _ hnc
        · rw [hc1]
          exact hrest.1
        · rw [hc1]
          show j ∈ keysA (eraseA c.cache oldest) ↔ j ∈ rest
          rw [mem_keysA_eraseA _ _ _ hnc]
          constructor
          · rintro ⟨hj, hne⟩
            have := (hmem j).mp hj
            rw [horder, List.mem_cons] at this
            rcases this with h3 | h3
            · exact absurd h3 hne
            · exact h3
          · intro hj
            refine ⟨(hmem j).mpr ?_, fun he => hrest.2 (he ▸ hj)⟩
            rw [horder]
            exact List.mem_cons_of_mem _ hj
        · rw [hc1]
        · rw [hc1]
        · refine Or.inr ⟨?_, ?_, ?_⟩
          · rw [hc1]
            exact length_eraseA _ _ holdmem
          · rw [← lookupA_isNone_iff]
            exact hcond.2
          · rw [hc1]
            intro j hj
            exact ((mem_keysA_eraseA _ _ _ hnc).mp hj).1
  · rw [if_neg hcond] at hev
    have hc1 : c1 = c := by
      cases hev
      rfl
    subst hc1
    refine ⟨⟨hnc, hno, hmem⟩, rfl, rfl, Or.inl ⟨rfl, fun hcc => ?_⟩⟩
    exact hcond ⟨hcc.1, (lookupA_isNone_iff _ _).mpr hcc.2⟩

theorem set_wf {c c' : CacheState} {k : String} {v : PyVal}
    {ttl : Option Nat} {now : Nat} (h : CacheWF c)
    (hlen : c.cache.length ≤ c.maxSize)
    (hs : InMemoryCache.set c k v ttl now = Except.ok c') :
    CacheWF c' ∧ c'.cache.length ≤ c.maxSize ∧ c'.maxSize = c.maxSize ∧
      c'.defaultTtl = c.defaultTtl := by
  unfold InMemoryCache.set at hs
  cases hev : InMemoryCache.evictIfFull c k with
  | error e =>
      rw [hev] at hs
      cases hs
  | ok c1 =>
      rw [hev] at hs
      have hc' : c' = InMemoryCache.insertEntry c1 k v
          (now + InMemoryCache.effTtl c ttl) := by
        cases hs
        rfl
      obtain ⟨hwf1, hmax1, httl1, hcase⟩ := evictIfFull_ok h hev
      subst hc'
      refine ⟨insertEntry_wf hwf1, ?_, hmax1, httl1⟩
      rw [length_insertEntry]
      rcases hcase with ⟨heq, hncond⟩ | ⟨hlen1, hk, hsub⟩
      · subst heq
        by_cases hkmem : k ∈ keysA c1.cache
        · rw [if_pos hkmem]
          exact hlen
        · rw [if_neg hkmem]
          rcases Nat.lt_or_ge c1.cache.length c1.maxSize with hlt | hge
          · exact hlt
          · exact absurd ⟨hge, hkmem⟩ hncond
      · have hkmem : k ∉ keysA c1.cache := fun hj => hk (hsub hj)
        rw [if_neg hkmem, hlen1]
        exact hlen

theorem runSets_inv (ops : List SetOp) : ∀ c : CacheState, CacheWF c →
    c.cache.length ≤ c.maxSize →
    CacheWF (runSets c ops) ∧
      (runSets c ops).cache.length ≤ (runSets c ops).maxSize ∧
      (runSets c ops).maxSize = c.maxSize := by
  induction ops with
  | nil =>
      intro c hwf hlen
      exact ⟨hwf, hlen, rfl⟩
  | cons op rest ih =>
      intro c hwf hlen
      cases hs : InMemoryCache.set c op.key op.value op.ttl op.now with
      | error e =>
          have hr : runSets c (op :: rest) = runSets c rest := by
            show (match InMemoryCache.set c op.key op.value op.ttl op.now with
              | Except.ok c1 => runSets c1 rest
              | Except.error _ => runSets c rest) = runSets c rest
            rw [hs]
          rw [hr]
          exact ih c hwf hlen
      | ok c1 =>
          have hr : runSets c (op :: rest) = runSets c1 rest := by
            show (match InMemoryCache.set c op.key op.value op.ttl op.now with
              | Except.ok c2 => runSets c2 rest
              | Except.error _ => runSets c rest) = runSets c1 rest
            rw [hs]
          rw [hr]
          obtain ⟨hwf1, hlen1, hmax1, _⟩ := set_wf hwf hlen hs
          have := ih c1 hwf1 (by rw [hmax1]; exact hlen1)
          exact ⟨this.1, this.2.1, by rw [this.2.2, hmax1]⟩

/-! ### Sanity anchors for the MD5 embedding (standard test vectors) -/

example : md5hex (strBytes "abc") = "900150983cd24fb0d6963f7d28e17f72" := rfl

example : md5hex (strBytes "") = "d41d8cd98f00b204e9800998ecf8427e" := rfl

/-! ### The claims -/

/-- C1: for every cache constructed with capacity `max_size` and every
sequence of `set` operations (any keys, values, ttls, call times), the
number of entries in the cache's table never exceeds `max_size`. The
operation sequence is universally quantified, so the bound holds after
every prefix of every sequence. -/
theorem C1_capacity_invariant (maxSize defaultTtl : Nat) (ops : List SetOp) :
    (runSets (initCache maxSize defaultTtl) ops).cache.length ≤ maxSize := by
  have h := runSets_inv ops (initCache maxSize defaultTtl)
    (initCache_wf maxSize defaultTtl) (by simp [initCache])
  have h2 := h.2.1
  rw [h.2.2] at h2
  exact h2

/-- C2, evaluated at the failing input: the claim says an entry set with
`ttl=0` and read after any nonzero delay returns absent; but `set` computes
`ttl = ttl or self.default_ttl`, so an explicit `ttl=0` silently falls back
to the default TTL (3600 here): the value stored at time 0 with `ttl=0` is
still returned at time 1 — and counted as a hit. -/
theorem C2_ttl_zero_still_returned :
    (InMemoryCache.set (initCache 1000 3600) "k" (PyVal.str "x")
        (some 0) 0).map
      (fun c1 => ((InMemoryCache.get c1 "k" 1).1,
        (InMemoryCache.get c1 "k" 1).2.hits))
      = Except.ok (PyVal.str "x", 1) := rfl

/-- C9, counterexample: the claim says a capacity-0 cache treats every
`set` as an immediate eviction or a silent no-op, raising no error; in
fact the very first `set` pops from the empty access-order list and
raises `IndexError`. -/
theorem C9_counterexample :
    InMemoryCache.set (initCache 0 3600) "k" (PyVal.str "v") Option.none 0
      = Except.error "IndexError: pop from empty list" := rfl

/-- A capacity-0 cache rejects every `set` from its initial state. -/
theorem setZeroCap_error (d : Nat) (k : String) (v : PyVal)
    (ttl : Option Nat) (now : Nat) :
    InMemoryCache.set (initCache 0 d) k v ttl now
      = Except.error "IndexError: pop from empty list" := rfl

/-- C9 as amended: with capacity 0, the table does stay empty under any
sequence of `set` operations and every `get` misses (returns `None`), but
not because `set` is a silent no-op: every `set` of the (necessarily
absent) key raises `IndexError` from popping the empty recency list. -/
theorem C9_amended_zero_capacity (d : Nat) (ops : List SetOp) (k : String)
    (v : PyVal) (ttl : Option Nat) (now now2 : Nat) :
    runSets (initCache 0 d) ops = initCache 0 d ∧
    (runSets (initCache 0 d) ops).cache = [] ∧
    (InMemoryCache.get (runSets (initCache 0 d) ops) k now).1
      = PyVal.none ∧
    InMemoryCache.set (runSets (initCache 0 d) ops) k v ttl now2
      = Except.error "IndexError: pop from empty list" := by
  have hrun : ∀ ops2 : List SetOp, runSets (initCache 0 d) ops2
      = initCache 0 d := by
    intro ops2
    induction ops2 with
    | nil => rfl
    | cons op rest ih =>
        have hr : runSets (initCache 0 d) (op :: rest)
            = runSets (initCache 0 d) rest := by
          show (match InMemoryCache.set (initCache 0 d) op.key op.value
              op.ttl op.now with
            | Except.ok c1 => runSets c1 rest
            | Except.error _ => runSets (initCache 0 d) rest)
            = runSets (initCache 0 d) rest
          rw [setZeroCap_error]
        rw [hr, ih]
  refine ⟨hrun ops, ?_, ?_, ?_⟩
  · rw [hrun ops]
    rfl
  · rw [hrun ops]
    rfl
  · rw [hrun ops]
    exact setZeroCap_error d k v ttl now2

/-- C10: a present, unexpired entry whose stored value is Python `None`
is returned as `None` by `get` — the same value `get` returns for an
absent key — while the internal counters record it as a hit (hits
incremented, misses untouched). A caller cannot tell a cached `None` from
a miss by the return value alone. -/
theorem C10_cached_none_looks_like_miss (c c' : CacheState) (k : String)
    (ttl : Option Nat) (now1 now2 : Nat)
    (hset : InMemoryCache.set c k PyVal.none ttl now1 = Except.ok c')
    (hfresh : now2 < now1 + InMemoryCache.effTtl c ttl) :
    (InMemoryCache.get c' k now2).1 = PyVal.none ∧
    (InMemoryCache.get c' k now2).2.hits = c'.hits + 1 ∧
    (InMemoryCache.get c' k now2).2.misses = c'.misses ∧
    ∀ (c2 : CacheState) (k2 : String) (now3 : Nat),
      lookupA c2.cache k2 = Option.none →
      (InMemoryCache.get c2 k2 now3).1 = PyVal.none := by
  have hlook : lookupA c'.cache k
      = some (PyVal.none, now1 + InMemoryCache.effTtl c ttl) := by
    unfold InMemoryCache.set at hset
    cases hev : InMemoryCache.evictIfFull c k with
    | error e =>
        rw [hev] at hset
        cases hset
    | ok c1 =>
        rw [hev] at hset
        have hc' : c' = InMemoryCache.insertEntry c1 k PyVal.none
            (now1 + InMemoryCache.effTtl c ttl) := by
          cases hset
          rfl
        rw [hc']
        exact lookupA_setA_self c1.cache k _
  have hget : InMemoryCache.get c' k now2
      = (PyVal.none,
        { c' with
          hits := c'.hits + 1,
          accessOrder := removeL c'.accessOrder k ++ [k] }) := by
    unfold InMemoryCache.get
    rw [hlook]
    dsimp only
    rw [if_pos hfresh]
  refine ⟨by rw [hget], by rw [hget], by rw [hget], ?_⟩
  intro c2 k2 now3 hnone
  unfold InMemoryCache.get
  rw [hnone]

/-- C10 witness: setting `None` under key "k" at time 0 into a fresh
cache and reading it back at time 1. -/
theorem C10_witness :
    (InMemoryCache.get
      ⟨[("k", (PyVal.none, 3600))], ["k"], 1000, 3600, 0, 0⟩ "k" 1).1
      = PyVal.none :=
  (C10_cached_none_looks_like_miss (initCache 1000 3600)
    ⟨[("k", (PyVal.none, 3600))], ["k"], 1000, 3600, 0, 0⟩ "k"
    Option.none 0 1 rfl (by decide)).1

/-- C3: on a capacity-2 cache with unexpired entries, after
`set A, set B, get A, set C` with three distinct keys, the LRU key `B` is
evicted while `A` (refreshed by the interleaved `get`) and `C` remain;
the final recency order is `[A, C]`. Both get hits and sets count as uses. -/
theorem C3_lru_evicts_least_recent (A B C : String) (vA vB vC : PyVal)
    (hAB : A ≠ B) (hAC : A ≠ C) (hBC : B ≠ C) :
    lookupA (c3Trace A B C vA vB vC).cache B = Option.none ∧
    lookupA (c3Trace A B C vA vB vC).cache A = some (vA, 3600) ∧
    lookupA (c3Trace A B C vA vB vC).cache C = some (vC, 3603) ∧
    (c3Trace A B C vA vB vC).accessOrder = [A, C] := by
  simp only [c3Trace, runSets, initCache, InMemoryCache.set,
    InMemoryCache.evictIfFull, InMemoryCache.insertEntry,
    InMemoryCache.effTtl, InMemoryCache.get, lookupA, setA, eraseA, removeL]
  simp [hAB, hAC, hBC, Ne.symm hAB, Ne.symm hAC, Ne.symm hBC, lookupA,
    setA, eraseA, removeL]

/-- C3 witness: the trace at the concrete keys "a", "b", "c". -/
theorem C3_witness :
    lookupA (c3Trace "a" "b" "c" (PyVal.int 1) (PyVal.int 2)
      (PyVal.int 3)).cache "b" = Option.none ∧
    lookupA (c3Trace "a" "b" "c" (PyVal.int 1) (PyVal.int 2)
      (PyVal.int 3)).cache "a" = some (PyVal.int 1, 3600) ∧
    lookupA (c3Trace "a" "b" "c" (PyVal.int 1) (PyVal.int 2)
      (PyVal.int 3)).cache "c" = some (PyVal.int 3, 3603) ∧
    (c3Trace "a" "b" "c" (PyVal.int 1) (PyVal.int 2)
      (PyVal.int 3)).accessOrder = ["a", "c"] :=
  C3_lru_evicts_least_recent "a" "b" "c" (PyVal.int 1) (PyVal.int 2)
    (PyVal.int 3) (by decide) (by decide) (by decide)

/-- C4: a work unit failing exactly twice and then succeeding, run with
`max_retries = 3` and backoff base `b`, returns the successful result,
performs exactly 3 attempts, and sleeps exactly twice — `b ^ 0` before the
second attempt and `b ^ 1` before the third. -/
theorem C4_retry_backoff (b : Rat) (e : Err) (v : PyVal) :
    retryOnError 3 b (failNTimes 2 e v)
      = ⟨Except.ok v, 3, [b ^ 0, b ^ 1]⟩ := rfl

/-- C5: a work unit that fails on every attempt, run with
`max_retries = 3`, performs exactly 3 attempts and then terminates with
the exhaustion failure carrying the last underlying error (the one from
attempt index 2) — it neither succeeds nor reports any other error. -/
theorem C5_exhaustion (b : Rat) (e : Nat → Err) :
    retryOnError 3 b (alwaysFail e : Attempt PyVal)
      = ⟨Except.error (some (e 2)), 3, [b ^ 0, b ^ 1]⟩ := rfl

/-- C6, counterexample: the claim says a `RateLimited(retry_after=5)`
failure makes the wait before the next attempt exactly 5, replacing the
exponential backoff. In the source, `_handle_response` sleeps
`retry_after` and then raises `ClientError`, and the retry decorator
additionally sleeps `backoff_factor ** attempt`: with `backoff_factor = 2`
the waits before the second attempt are `[5, 1]`, not `[5]`. -/
theorem C6_counterexample :
    (retryOnError 3 2 (rateLimitedOnce 5 (PyVal.str "ok"))).sleeps
        = [(5 : Rat), 1] ∧
    (retryOnError 3 2 (rateLimitedOnce 5 (PyVal.str "ok"))).sleeps
        ≠ [(5 : Rat)] ∧
    (retryOnError 3 2 (rateLimitedOnce 5 (PyVal.str "ok"))).result
        = Except.ok (PyVal.str "ok") := by
  refine ⟨rfl, ?_, rfl⟩
  intro h
  have h2 : ([(5 : Rat), 1] : List Rat).length = [(5 : Rat)].length := by
    rw [← h]
    rfl
  simp at h2

/-- C6 as amended: on a `RateLimited(retry_after)` response the executor
sleeps `retry_after` inside the response handler and then additionally
sleeps the exponential backoff `b ^ attempt` before the next attempt — the
rate-limit hint adds to the computed backoff rather than replacing it, so
the waits between the first and second attempts are
`[retry_after, b ^ 0]`. -/
theorem C6_amended_hint_adds_to_backoff (b : Rat) (r : Nat) (v : PyVal) :
    retryOnError 3 b (rateLimitedOnce r v)
      = ⟨Except.ok v, 2, [(r : Rat), b ^ 0]⟩ := rfl

/-- Sorting keyword items is permutation-invariant when the keyword names
are distinct (as they always are for Python kwargs). -/
theorem sortKwargs_perm_eq {kw1 kw2 : List (String × PyVal)}
    (hperm : kw1.Perm kw2) (hnd : (kw1.map Prod.fst).Nodup) :
    sortKwargs kw1 = sortKwargs kw2 := by
  haveI hTot : IsTotal (String × PyVal) (fun p q => p.1 ≤ q.1) :=
    ⟨fun a b => le_total a.1 b.1⟩
  haveI hTrans : IsTrans (String × PyVal) (fun p q => p.1 ≤ q.1) :=
    ⟨fun a b c h1 h2 => le_trans h1 h2⟩
  haveI hAnti : IsAntisymm (String × PyVal) (fun p q => p.1 < q.1) :=
    ⟨fun a b h1 h2 => absurd h2 (lt_asymm h1)⟩
  have hnd2 : (kw2.map Prod.fst).Nodup :=
    ((hperm.map Prod.fst).nodup_iff).mp hnd
  have hp1 : (sortKwargs kw1).Perm kw1 := by
    unfold sortKwargs
    exact List.perm_insertionSort (fun p q => p.1 ≤ q.1) kw1
  have hp2 : (sortKwargs kw2).Perm kw2 := by
    unfold sortKwargs
    exact List.perm_insertionSort (fun p q => p.1 ≤ q.1) kw2
  have hstrict : ∀ l : List (String × PyVal),
      List.Sorted (fun p q : String × PyVal => p.1 ≤ q.1) l →
      (l.map Prod.fst).Nodup →
      List.Sorted (fun p q : String × PyVal => p.1 < q.1) l := by
    intro l hs hn
    have hne := (List.pairwise_map).mp hn
    exact (hs.and hne).imp (fun h => lt_of_le_of_ne h.1 h.2)
  have hsorted : ∀ kw : List (String × PyVal),
      List.Sorted (fun p q : String × PyVal => p.1 ≤ q.1) (sortKwargs kw) := by
    intro kw
    unfold sortKwargs
    exact List.sorted_insertionSort (fun p q => p.1 ≤ q.1) kw
  have hs1 := hstrict (sortKwargs kw1) (hsorted kw1)
    (((hp1.map Prod.fst).nodup_iff).mpr hnd)
  have hs2 := hstrict (sortKwargs kw2) (hsorted kw2)
    (((hp2.map Prod.fst).nodup_iff).mpr hnd2)
  exact List.eq_of_perm_of_sorted ((hp1.trans hperm).trans hp2.symm) hs1 hs2

/-- C7, counterexample: the claim says two bodies holding the same
field-value pairs in different orders map to the same key. At the
orchestrator's call site the body is a positional argument, serialized by
the f-string in its own insertion order (the kwargs sorting never touches
it), so the two orderings hash to different MD5 keys. The two digests
below are exactly what CPython's `hashlib.md5` produces for the two
serializations. -/
theorem C7_counterexample :
    makeKey [PyVal.str "/users", PyVal.str "GET",
        PyVal.dict [("a", PyVal.int 1), ("b", PyVal.int 2)]] []
      = "7f7fb64cc6d40f80cd3aced8d67872f7" ∧
    makeKey [PyVal.str "/users", PyVal.str "GET",
        PyVal.dict [("b", PyVal.int 2), ("a", PyVal.int 1)]] []
      = "ba9bc891cea8a9af0bb02c4af574f460" ∧
    makeKey [PyVal.str "/users", PyVal.str "GET",
        PyVal.dict [("a", PyVal.int 1), ("b", PyVal.int 2)]] []
      ≠ makeKey [PyVal.str "/users", PyVal.str "GET",
        PyVal.dict [("b", PyVal.int 2), ("a", PyVal.int 1)]] [] := by
  refine ⟨rfl, rfl, ?_⟩
  intro h
  rw [show makeKey [PyVal.str "/users", PyVal.str "GET",
      PyVal.dict [("a", PyVal.int 1), ("b", PyVal.int 2)]] []
      = "7f7fb64cc6d40f80cd3aced8d67872f7" from rfl] at h
  rw [show makeKey [PyVal.str "/users", PyVal.str "GET",
      PyVal.dict [("b", PyVal.int 2), ("a", PyVal.int 1)]] []
      = "ba9bc891cea8a9af0bb02c4af574f460" from rfl] at h
  simp at h

/-- C7 as amended: the key derivation is a pure (hence deterministic)
function of endpoint, method and body, and it is insensitive to the
ordering of keyword items, which are sorted before hashing; but the body
is passed positionally, outside the sorted kwargs, so bodies with the same
fields in different insertion orders produce different serializations (and
hence different keys, per the counterexample). -/
theorem C7_amended_kwargs_order_insensitive (args : List PyVal)
    (kw1 kw2 : List (String × PyVal)) (hperm : kw1.Perm kw2)
    (hnd : (kw1.map Prod.fst).Nodup) :
    makeKey args kw1 = makeKey args kw2 := by
  unfold makeKey
  rw [sortKwargs_perm_eq hperm hnd]

/-- C7 witness: the kwarg lists `[b: 2, a: 1]` and `[a: 1, b: 2]` are
permutations with distinct names and produce the same key. -/
theorem C7_witness :
    makeKey [PyVal.str "/users"] [("b", PyVal.int 2), ("a", PyVal.int 1)]
      = makeKey [PyVal.str "/users"]
        [("a", PyVal.int 1), ("b", PyVal.int 2)] :=
  C7_amended_kwargs_order_insensitive [PyVal.str "/users"]
    [("b", PyVal.int 2), ("a", PyVal.int 1)]
    [("a", PyVal.int 1), ("b", PyVal.int 2)]
    (List.Perm.swap ("a", PyVal.int 1) ("b", PyVal.int 2) [])
    (by decide)

/-- C8, counterexample: the claim says every cache hit (including falsy
cached payloads) is returned without touching the limiter or the network.
The source guards with `if cached:`, a truthiness test, so a hit whose
cached value is falsy (here: the empty dict) falls through: the cache
records a hit (hits counter 1), yet the cache-hit metric stays 0, the
semaphore is entered and the simulated remote call runs. The cache key is
the MD5 key `_make_key('/users', 'GET', None)` produces. -/
theorem C8_counterexample :
    (apiCallWithRetry
      ⟨⟨[("be4b8e5d29ed6926e841362db7b1cfc1", (PyVal.dict [], 100))],
        ["be4b8e5d29ed6926e841362db7b1cfc1"], 1000, 3600, 0, 0⟩,
       0, 0, 0, 0, 0⟩ "/users" "GET" PyVal.none 3 0).state.cache.hits = 1 ∧
    (apiCallWithRetry
      ⟨⟨[("be4b8e5d29ed6926e841362db7b1cfc1", (PyVal.dict [], 100))],
        ["be4b8e5d29ed6926e841362db7b1cfc1"], 1000, 3600, 0, 0⟩,
       0, 0, 0, 0, 0⟩ "/users" "GET" PyVal.none 3 0).state.cacheHits = 0 ∧
    (apiCallWithRetry
      ⟨⟨[("be4b8e5d29ed6926e841362db7b1cfc1", (PyVal.dict [], 100))],
        ["be4b8e5d29ed6926e841362db7b1cfc1"], 1000, 3600, 0, 0⟩,
       0, 0, 0, 0, 0⟩ "/users" "GET" PyVal.none 3 0).state.semAcquires = 1 ∧
    (apiCallWithRetry
      ⟨⟨[("be4b8e5d29ed6926e841362db7b1cfc1", (PyVal.dict [], 100))],
        ["be4b8e5d29ed6926e841362db7b1cfc1"], 1000, 3600, 0, 0⟩,
       0, 0, 0, 0, 0⟩ "/users" "GET" PyVal.none 3 0).state.remoteCalls = 1 :=
  ⟨rfl, rfl, rfl, rfl⟩

/-- C8 as amended: on a cache hit whose cached value is truthy, the
orchestrator increments the cache-hit metric and returns the cached value
without entering the semaphore, without running the remote call, without
bumping the api-call metric and without sleeping. A hit with a falsy
cached value is instead treated like a miss (see the counterexample). -/
theorem C8_amended_truthy_hit (o : OrchState) (endpoint method : String)
    (data : PyVal) (maxRetries now : Nat)
    (h : truthy (InMemoryCache.get o.cache
      (makeKey [PyVal.str endpoint, PyVal.str method, data] []) now).1
      = true) :
    (apiCallWithRetry o endpoint method data maxRetries now).result
      = Except.ok (InMemoryCache.get o.cache
        (makeKey [PyVal.str endpoint, PyVal.str method, data] []) now).1 ∧
    (apiCallWithRetry o endpoint method data maxRetries now).state.cacheHits
      = o.cacheHits + 1 ∧
    (apiCallWithRetry o endpoint method data maxRetries now).state.semAcquires
      = o.semAcquires ∧
    (apiCallWithRetry o endpoint method data maxRetries now).state.remoteCalls
      = o.remoteCalls ∧
    (apiCallWithRetry o endpoint method data maxRetries now).state.apiCalls
      = o.apiCalls ∧
    (apiCallWithRetry o endpoint method data maxRetries now).sleeps = [] := by
  unfold apiCallWithRetry
  dsimp only
  rw [if_pos h]
  exact ⟨rfl, rfl, rfl, rfl, rfl, rfl⟩

/-- C8 witness: a state caching the truthy string "cached" under the key
derived for `('/users', 'GET', None)`, read back at time 0. -/
theorem C8_witness :
    (apiCallWithRetry
      ⟨⟨[("be4b8e5d29ed6926e841362db7b1cfc1", (PyVal.str "cached", 100))],
        ["be4b8e5d29ed6926e841362db7b1cfc1"], 1000, 3600, 0, 0⟩,
       0, 0, 0, 0, 0⟩ "/users" "GET" PyVal.none 3 0).result
      = Except.ok (InMemoryCache.get
        (⟨⟨[("be4b8e5d29ed6926e841362db7b1cfc1", (PyVal.str "cached", 100))],
        ["be4b8e5d29ed6926e841362db7b1cfc1"], 1000, 3600, 0, 0⟩,
       0, 0, 0, 0, 0⟩ : OrchState).cache
        (makeKey [PyVal.str "/users", PyVal.str "GET", PyVal.none] []) 0).1 ∧
    (apiCallWithRetry
      ⟨⟨[("be4b8e5d29ed6926e841362db7b1cfc1", (PyVal.str "cached", 100))],
        ["be4b8e5d29ed6926e841362db7b1cfc1"], 1000, 3600, 0, 0⟩,
       0, 0, 0, 0, 0⟩ "/users" "GET" PyVal.none 3 0).state.cacheHits = 0 + 1 ∧
    (apiCallWithRetry
      ⟨⟨[("be4b8e5d29ed6926e841362db7b1cfc1", (PyVal.str "cached", 100))],
        ["be4b8e5d29ed6926e841362db7b1cfc1"], 1000, 3600, 0, 0⟩,
       0, 0, 0, 0, 0⟩ "/users" "GET" PyVal.none 3 0).state.semAcquires = 0 ∧
    (apiCallWithRetry
      ⟨⟨[("be4b8e5d29ed6926e841362db7b1cfc1", (PyVal.str "cached", 100))],
        ["be4b8e5d29ed6926e841362db7b1cfc1"], 1000, 3600, 0, 0⟩,
       0, 0, 0, 0, 0⟩ "/users" "GET" PyVal.none 3 0).state.remoteCalls = 0 ∧
    (apiCallWithRetry
      ⟨⟨[("be4b8e5d29ed6926e841362db7b1cfc1", (PyVal.str "cached", 100))],
        ["be4b8e5d29ed6926e841362db7b1cfc1"], 1000, 3600, 0, 0⟩,
       0, 0, 0, 0, 0⟩ "/users" "GET" PyVal.none 3 0).state.apiCalls = 0 ∧
    (apiCallWithRetry
      ⟨⟨[("be4b8e5d29ed6926e841362db7b1cfc1", (PyVal.str "cached", 100))],
        ["be4b8e5d29ed6926e841362db7b1cfc1"], 1000, 3600, 0, 0⟩,
       0, 0, 0, 0, 0⟩ "/users" "GET" PyVal.none 3 0).sleeps = [] :=
  C8_amended_truthy_hit
    ⟨⟨[("be4b8e5d29ed6926e841362db7b1cfc1", (PyVal.str "cached", 100))],
      ["be4b8e5d29ed6926e841362db7b1cfc1"], 1000, 3600, 0, 0⟩,
     0, 0, 0, 0, 0⟩ "/users" "GET" PyVal.none 3 0 rfl
